import Mathlib

/-!
Verification of the liftbridge commit log and cluster-metadata plane.

The definitions below are a shallow embedding of `server/commitlog/commitlog.go`
and `server/metadata.go`.  Components of the repository whose sources are not
part of the verified tree (segment file operations, the leader-epoch cache
internals, partition accessors) are modelled from the specification; every such
definition carries a doc comment starting with `Modelled from the spec:`.
-/

namespace Liftbridge

/-! ### Definitions: the embedded data model and operations -/

/-- A log segment: a contiguous range of record offsets backed by a data file
and an index file.  `offsets` lists the offsets of the records stored in the
segment in write order; `position` is the number of bytes written. -/
structure Segment where
  baseOffset : Int
  offsets : List Int
  position : Int
  firstWriteTime : Int
  isSealed : Bool
deriving DecidableEq, Repr

instance : Inhabited Segment := ⟨⟨0, [], 0, 0, false⟩⟩

/-- Modelled from the spec: a segment's `nextOffset` is the offset one past the
last record written, or `baseOffset` when the segment is empty. -/
def Segment.nextOffset (s : Segment) : Int :=
  match s.offsets.getLast? with
  | some o => o + 1
  | none => s.baseOffset

/-- An entry of the leader-epoch cache: the first offset assigned in `epoch`. -/
structure EpochEntry where
  epoch : Nat
  startOffset : Int
deriving DecidableEq, Repr

/-- Modelled from the spec: `lastLeaderEpoch()` returns the most recently
assigned epoch, `0` if the cache is empty. -/
def lastLeaderEpoch (cache : List EpochEntry) : Nat :=
  match cache.getLast? with
  | some e => e.epoch
  | none => 0

/-- Modelled from the spec: `lastOffsetForLeaderEpoch(requestedEpoch)` returns
`-1` when the requested epoch equals the last cached epoch, otherwise the
`startOffset` of the least cached epoch strictly greater than the requested
one, and `-1` when no such epoch exists. -/
def cacheLastOffsetForLeaderEpoch (cache : List EpochEntry) (requested : Nat) : Int :=
  if requested = lastLeaderEpoch cache then -1
  else
    match (cache.filter (fun e => decide (requested < e.epoch))).head? with
    | some e => e.startOffset
    | none => -1

/-- Modelled from the spec: `clearLatest(offset)` drops the cache entries whose
`startOffset` is greater than `offset`. -/
def clearLatest (cache : List EpochEntry) (offset : Int) : List EpochEntry :=
  cache.filter (fun e => decide (e.startOffset ≤ offset))

/-- Modelled from the spec: `assign(epoch, offset)` appends the pair iff
`epoch` is strictly greater than the last cached epoch. -/
def assignEpoch (cache : List EpochEntry) (epoch : Nat) (offset : Int) : List EpochEntry :=
  if lastLeaderEpoch cache < epoch then cache ++ [⟨epoch, offset⟩] else cache

/-- The in-memory state of `commitLog`.  HW waiters are identified by opaque
ids (the Go code keys them by a `contextReader`). -/
structure CommitLog where
  segments : List Segment
  hw : Int
  readonlyFlag : Bool
  hwWaiters : List Nat
  epochCache : List EpochEntry
  concurrencyControl : Bool
  maxSegmentBytes : Int
  maxSegmentAge : Int
deriving DecidableEq, Repr

/-- `activeSegment` is the last segment of the log (the Go code caches it in an
atomic pointer whose invariant is that it equals the last list element). -/
def activeSegment (l : CommitLog) : Segment :=
  l.segments.getLastD default

/-- `NewestOffset` returns the offset of the last message, `-1` if empty. -/
def newestOffset (l : CommitLog) : Int :=
  (activeSegment l).nextOffset - 1

/-- `LastOffsetForLeaderEpoch` as implemented: consult the epoch cache, and on
a `-1` answer fall back to `activeSegment().NextOffset() - 1`. -/
def lastOffsetForLeaderEpoch (l : CommitLog) (epoch : Nat) : Int :=
  if cacheLastOffsetForLeaderEpoch l.epochCache epoch = -1 then
    (activeSegment l).nextOffset - 1
  else cacheLastOffsetForLeaderEpoch l.epochCache epoch

/-- `notifyHWChange`: wake every registered HW waiter with `false` and drop the
registrations.  The second component is the list of notifications sent. -/
def notifyHWChange (l : CommitLog) : CommitLog × List (Nat × Bool) :=
  ({ l with hwWaiters := [] }, l.hwWaiters.map (fun r => (r, false)))

/-- `SetHighWatermark`: monotonic set, notifying waiters only on an advance. -/
def SetHighWatermark (l : CommitLog) (hw : Int) : CommitLog × List (Nat × Bool) :=
  if l.hw < hw then notifyHWChange { l with hw := hw } else (l, [])

/-- `OverrideHighWatermark`: unconditional set, bypassing monotonicity. -/
def OverrideHighWatermark (l : CommitLog) (hw : Int) : CommitLog × List (Nat × Bool) :=
  notifyHWChange { l with hw := hw }

/-- `notifyReadonly`: if the HW has caught up to the newest offset, wake every
HW waiter with `true`; otherwise do nothing. -/
def notifyReadonly (l : CommitLog) : CommitLog × List (Nat × Bool) :=
  if l.hw < newestOffset l then (l, [])
  else ({ l with hwWaiters := [] }, l.hwWaiters.map (fun r => (r, true)))

/-- `SetReadonly`: store the flag and, when turning readonly on, run
`notifyReadonly`. -/
def SetReadonly (l : CommitLog) (b : Bool) : CommitLog × List (Nat × Bool) :=
  if b then notifyReadonly { l with readonlyFlag := b }
  else ({ l with readonlyFlag := b }, [])

/-- The outcome of `waitForHW` for the calling reader. -/
inductive WaitResult where
  | firedFalse
  | firedTrue
  | parked
deriving DecidableEq, Repr

/-- `waitForHW`: fire `false` immediately when the reader's HW view is stale,
fire `true` immediately when the log is readonly with the HW caught up to the
newest offset, otherwise park the reader in the waiter map. -/
def waitForHW (l : CommitLog) (r : Nat) (hw : Int) : CommitLog × WaitResult :=
  if l.hw ≠ hw then (l, .firedFalse)
  else if l.hw = newestOffset l ∧ l.readonlyFlag then (l, .firedTrue)
  else ({ l with hwWaiters := if r ∈ l.hwWaiters then l.hwWaiters else l.hwWaiters ++ [r] },
        .parked)

/-- Errors surfaced by the append path. -/
inductive LogError where
  | readonlyErr
  | incorrectOffset
deriving DecidableEq, Repr

/-- A message handed to `Append`; `offset` is the caller-supplied expected
offset used by optimistic concurrency control. -/
structure Message where
  offset : Int
  leaderEpoch : Nat
  size : Nat
deriving DecidableEq, Repr

/-- An index entry derived from a framed message. -/
structure Entry where
  offset : Int
  leaderEpoch : Nat
  size : Nat
deriving DecidableEq, Repr

/-- Modelled from the spec: the rolling policy checked before every append (the
segment implementation is not part of the verified sources).  At this call site
the check sees the current position and the age of the first write. -/
def Segment.checkSplit (s : Segment) (now maxSegmentAge maxSegmentBytes : Int) : Bool :=
  decide (maxSegmentBytes < s.position) ||
    (decide (0 < maxSegmentAge) && decide (s.firstWriteTime ≠ 0) &&
      decide (maxSegmentAge < now - s.firstWriteTime))

/-- Modelled from the spec: `writeMessageSet` appends the framed bytes and the
index entries to the segment, updating `position` and the first-write time. -/
def Segment.writeMessageSet (s : Segment) (now bytes : Int) (entries : List Entry) : Segment :=
  { s with
    offsets := s.offsets ++ entries.map (fun e => e.offset)
    position := s.position + bytes
    firstWriteTime := if s.firstWriteTime = 0 then now else s.firstWriteTime }

/-- `split`: seal the active segment and append a fresh one whose base offset
is the next assignable offset. -/
def splitLog (l : CommitLog) : CommitLog :=
  { l with
    segments :=
      l.segments.dropLast ++
        (l.segments.getLast?.map (fun s => { s with isSealed := true })).toList ++
        [{ baseOffset := newestOffset l + 1, offsets := [], position := 0,
           firstWriteTime := 0, isSealed := false }] }

/-- `checkAndPerformSplit`: roll a new segment when the active segment is
eligible (in this sequential model the CAS always succeeds). -/
def checkAndPerformSplit (l : CommitLog) (now : Int) : CommitLog :=
  if (activeSegment l).checkSplit now l.maxSegmentAge l.maxSegmentBytes then splitLog l
  else l

/-- The lower-case `append`: write the message set to the active segment and
record any new leader epochs in the epoch cache, returning the offsets. -/
def appendEntries (l : CommitLog) (now bytes : Int) (entries : List Entry) :
    CommitLog × List Int :=
  let seg := (activeSegment l).writeMessageSet now bytes entries
  let cache := entries.foldl
    (fun c e => if lastLeaderEpoch c < e.leaderEpoch then assignEpoch c e.leaderEpoch e.offset
                else c)
    l.epochCache
  ({ l with segments := l.segments.dropLast ++ [seg], epochCache := cache },
   entries.map (fun e => e.offset))

/-- Modelled from the spec: `newMessageSetFromProto` assigns contiguous offsets
starting at `baseOffset` and, when optimistic concurrency control is enabled,
fails with `IncorrectOffset` if the batch's expected offset differs from the
next assignable offset. -/
def newMessageSetFromProto (baseOffset : Int) (msgs : List Message) (occ : Bool) :
    Except LogError (List Entry) :=
  if occ && (match msgs.head? with
             | some m => decide (m.offset ≠ baseOffset)
             | none => false) then
    .error .incorrectOffset
  else
    .ok (msgs.enum.map (fun p =>
      { offset := baseOffset + p.1, leaderEpoch := p.2.leaderEpoch, size := p.2.size }))

/-- `Append`: the producer-facing append.  Rejected with the readonly error
when the log is in readonly mode, before any state is touched. -/
def Append (l : CommitLog) (now : Int) (msgs : List Message) :
    CommitLog × Except LogError (List Int) :=
  if l.readonlyFlag then (l, .error .readonlyErr)
  else
    let l1 := checkAndPerformSplit l now
    match newMessageSetFromProto (activeSegment l1).nextOffset msgs l1.concurrencyControl with
    | .error e => (l1, .error e)
    | .ok entries =>
      let res := appendEntries l1 now (msgs.foldl (fun acc m => acc + (m.size : Int)) 0) entries
      (res.1, .ok res.2)

/-- `AppendMessageSet`: the replication-ingest append.  The message set carries
its own offsets (parsed by `entriesForMessageSet`); no readonly check is made. -/
def AppendMessageSet (l : CommitLog) (now bytes : Int) (entries : List Entry) :
    CommitLog × List Int :=
  appendEntries (checkAndPerformSplit l now) now bytes entries

/-- A concrete single-segment log whose last cached leader epoch is `5`. -/
def logC2 : CommitLog :=
  { segments := [{ baseOffset := 0, offsets := [0, 1, 2], position := 30,
                   firstWriteTime := 1, isSealed := false }]
    hw := 2, readonlyFlag := false, hwWaiters := [], epochCache := [⟨5, 0⟩]
    concurrencyControl := false, maxSegmentBytes := 1024, maxSegmentAge := 0 }

/-- A log whose epoch cache holds epochs 1 and 3, for exercising the amended
claim C2 at a concrete input. -/
def logC2w : CommitLog :=
  { logC2 with epochCache := [⟨1, 0⟩, ⟨3, 4⟩] }

/-- A log with one registered HW waiter, id 7. -/
def logC4 : CommitLog :=
  { logC2 with hwWaiters := [7] }

/-- A readonly copy of `logC2`. -/
def logC3 : CommitLog :=
  { logC2 with readonlyFlag := true }

/-- Modelled from the spec: the copy-and-swap rewrite of the segment containing
the truncation point — scan the segment in order and copy the records whose
offset is less than the target into a fresh sibling segment with the same base
offset, stopping at the first record at or past the target. -/
def Segment.truncatedSeg (s : Segment) (offset : Int) : Segment :=
  { baseOffset := s.baseOffset
    offsets := s.offsets.takeWhile (fun o => decide (o < offset))
    position := 0
    firstWriteTime := 0
    isSealed := false }

/-- Modelled from the spec: `findSegment` locates the segment containing the
offset (`baseOffset ≤ offset < nextOffset`), returning its index, or `none`
when no segment contains it. -/
def findSegmentIdx (segments : List Segment) (offset : Int) : Option Nat :=
  match segments with
  | [] => none
  | s :: rest =>
    if s.baseOffset ≤ offset ∧ offset < s.nextOffset then some 0
    else (findSegmentIdx rest offset).map (· + 1)

/-- The segment-list part of `Truncate`: retain the segments preceding the one
containing the offset, delete the containing segment when the offset equals its
base offset and it is not the first segment, and otherwise replace it by its
truncated rewrite.  `none` means no segment contains the offset. -/
def truncateSegments (segments : List Segment) (offset : Int) : Option (List Segment) :=
  match findSegmentIdx segments offset with
  | none => none
  | some idx =>
    let seg := (segments[idx]?).getD default
    if seg.baseOffset = offset ∧ idx ≠ 0 then some (segments.take idx)
    else some (segments.take idx ++ [seg.truncatedSeg offset])

/-- `Truncate` removes all messages from the log starting at the given offset:
a no-op when no segment contains the offset, otherwise the segment list is
truncated and `clearLatest(offset)` is applied to the leader-epoch cache. -/
def Truncate (l : CommitLog) (offset : Int) : CommitLog :=
  match truncateSegments l.segments offset with
  | none => l
  | some segs => { l with segments := segs, epochCache := clearLatest l.epochCache offset }

/-- The dense run of `n` consecutive offsets starting at `base`. -/
def denseFrom (base : Int) : Nat → List Int
  | 0 => []
  | n + 1 => base :: denseFrom (base + 1) n

/-- A well-formed segment stores exactly the dense run of offsets starting at
its base offset (spec: offsets are dense and monotonic). -/
def Segment.WF (s : Segment) : Prop :=
  s.offsets = denseFrom s.baseOffset s.offsets.length

/-- Well-formedness of a log's segment list: every segment is well formed and
each base offset continues where the previous segment ended (spec:
`segments[i+1].baseOffset == segments[i].nextOffset`). -/
def segsWF : List Segment → Prop
  | [] => True
  | [s] => s.WF
  | s :: t :: rest => s.WF ∧ t.baseOffset = s.nextOffset ∧ segsWF (t :: rest)

instance Segment.WF.decidable (s : Segment) : Decidable s.WF :=
  inferInstanceAs (Decidable (s.offsets = denseFrom s.baseOffset s.offsets.length))

instance segsWF.decidable : (segs : List Segment) → Decidable (segsWF segs)
  | [] => isTrue trivial
  | [s] => inferInstanceAs (Decidable s.WF)
  | s :: t :: rest =>
    haveI := segsWF.decidable (t :: rest)
    inferInstanceAs (Decidable (s.WF ∧ t.baseOffset = s.nextOffset ∧ segsWF (t :: rest)))

/-- A two-segment well-formed log: offsets 0–1 in the first segment, 2–3 in
the second, with two epoch-cache entries. -/
def logC1 : CommitLog :=
  { segments := [{ baseOffset := 0, offsets := [0, 1], position := 20,
                   firstWriteTime := 1, isSealed := true },
                 { baseOffset := 2, offsets := [2, 3], position := 20,
                   firstWriteTime := 5, isSealed := false }]
    hw := 3, readonlyFlag := false, hwWaiters := [], epochCache := [⟨1, 0⟩, ⟨2, 3⟩]
    concurrencyControl := false, maxSegmentBytes := 1024, maxSegmentAge := 0 }

/-- A stream partition as tracked by the metadata store. -/
structure Partition where
  stream : String
  id : Int
  replicas : List String
  isr : List String
  leader : String
  epoch : Nat
deriving DecidableEq, Repr

instance : Inhabited Partition := ⟨⟨"", 0, [], [], "", 0⟩⟩

/-- Stable ascending sort of broker ids by a load function, modelling Go's
`sort.SliceStable` with the comparison `load[ids[i]] < load[ids[j]]`. -/
def sortByLoad (load : String → Nat) (ids : List String) : List String :=
  ids.mergeSort (fun a b => decide (load a ≤ load b))

/-- `getPartitionReplicas`: validate the replication factor (`-1` means the
whole cluster) and pick the `replicationFactor` brokers with the least
partition load, in stable ascending load order. -/
def getPartitionReplicas (partitionLoad : String → Nat) (ids : List String)
    (replicationFactor : Int) : Except String (List String) :=
  let rf := if replicationFactor = -1 then (ids.length : Int) else replicationFactor
  if rf ≤ 0 then .error "invalid replication factor"
  else if (ids.length : Int) < rf then .error "replication factor exceeds cluster size"
  else .ok ((sortByLoad partitionLoad ids).take rf.toNat)

/-- `selectPartitionLeader`: pick the replica with the least leader load,
in stable ascending load order. -/
def selectPartitionLeader (leaderLoad : String → Nat) (replicas : List String) : String :=
  (sortByLoad leaderLoad replicas).headD ""

/-- The per-partition leader-failure report: the set of replicas that have
witnessed the leader as unresponsive, and whether the expiry timer is armed. -/
structure LeaderReport where
  witnessReplicas : List String
  timerSet : Bool
deriving DecidableEq, Repr

/-- The action taken by `addWitness` after recording a witness. -/
inductive WitnessAction where
  | elect (result : Except String String)
  | timerReset
  | timerStarted
deriving Repr

/-- `electNewPartitionLeader`: restricted to the ISR — fail with the
No-ISR-candidates error when the ISR (minus the current leader) offers no
candidate, otherwise propose the candidate with the least leader load through
a `CHANGE_LEADER` consensus entry (returned here as the chosen leader). -/
def electNewPartitionLeader (leaderLoad : String → Nat) (p : Partition) :
    Except String String :=
  if p.isr.length ≤ 1 then .error "No ISR candidates"
  else
    let candidates := p.isr.filter (fun c => decide (c ≠ p.leader))
    if candidates.length = 0 then .error "No ISR candidates"
    else .ok (selectPartitionLeader leaderLoad candidates)

/-- `addWitness`: record the replica in the witness set; if strictly more than
half of the ISR size minus one (excluding the leader) have now reported, stop
the timer and elect a new leader; otherwise reset (or start) the expiry
timer. -/
def addWitness (leaderLoad : String → Nat) (rep : LeaderReport) (p : Partition)
    (replica : String) : LeaderReport × WitnessAction :=
  let ws := if replica ∈ rep.witnessReplicas then rep.witnessReplicas
            else rep.witnessReplicas ++ [replica]
  if (p.isr.length - 1) / 2 < ws.length then
    ({ rep with witnessReplicas := ws, timerSet := false },
     .elect (electNewPartitionLeader leaderLoad p))
  else if rep.timerSet then
    ({ rep with witnessReplicas := ws }, .timerReset)
  else
    ({ rep with witnessReplicas := ws, timerSet := true }, .timerStarted)

/-- Timer expiry for a partition's leader report: the report (and with it the
witness set) is deleted from the registry. -/
def expireLeaderReport (reports : List ((String × Int) × LeaderReport))
    (key : String × Int) : List ((String × Int) × LeaderReport) :=
  reports.filter (fun kv => decide (kv.1 ≠ key))

/-- The metadata store: the partition registry keyed by stream name and
partition id, and the in-memory broker load counters. -/
structure Metadata where
  parts : List ((String × Int) × Partition)
  brokerPartitionLoad : String → Int
  brokerLeaderLoad : String → Int

/-- `GetPartition`: look the partition up in the registry. -/
def getPartitionM (m : Metadata) (streamName : String) (partitionID : Int) :
    Option Partition :=
  List.lookup (streamName, partitionID) m.parts

/-- Store an updated partition under its key. -/
def setPartitionM (m : Metadata) (streamName : String) (partitionID : Int)
    (p : Partition) : Metadata :=
  { m with parts :=
      m.parts.map (fun kv =>
        if kv.1 = (streamName, partitionID) then ((streamName, partitionID), p) else kv) }

/-- Modelled from the spec: `shrinkISR` removes the replica from the
partition's in-sync replica set (the partition implementation is not part of
the verified sources). -/
def Partition.removeFromISRp (p : Partition) (replica : String) : Partition :=
  { p with isr := p.isr.erase replica }

/-- Modelled from the spec: `expandISR` adds the replica to the partition's
in-sync replica set when not already present. -/
def Partition.addToISRp (p : Partition) (replica : String) : Partition :=
  if replica ∈ p.isr then p else { p with isr := p.isr ++ [replica] }

/-- Modelled from the spec: `SetLeader` stores the new leader and its epoch. -/
def Partition.setLeaderP (p : Partition) (leader : String) (epoch : Nat) : Partition :=
  { p with leader := leader, epoch := epoch }

/-- Modelled from the spec: `SetEpoch` stores the partition epoch. -/
def Partition.setEpochP (p : Partition) (epoch : Nat) : Partition :=
  { p with epoch := epoch }

/-- Increment a broker's load counter. -/
def incLoad (f : String → Int) (b : String) : String → Int :=
  fun x => if x = b then f x + 1 else f x

/-- Guarded decrement of a broker's load counter: a counter not above zero is
left unchanged. -/
def decLoadGuard (f : String → Int) (b : String) : String → Int :=
  fun x => if x = b then (if 0 < f b then f b - 1 else f b) else f x

/-- `RemoveFromISR`: behind the epoch fence, remove the replica from the ISR
and record the new epoch.  The second component is the returned error. -/
def RemoveFromISR (m : Metadata) (streamName replica : String) (partitionID : Int)
    (epoch : Nat) : Metadata × Option String :=
  match getPartitionM m streamName partitionID with
  | none => (m, some "No such partition")
  | some p =>
    if epoch ≤ p.epoch then (m, none)
    else (setPartitionM m streamName partitionID ((p.removeFromISRp replica).setEpochP epoch),
          none)

/-- `AddToISR`: behind the epoch fence, add the replica to the ISR and record
the new epoch. -/
def AddToISR (m : Metadata) (streamName replica : String) (partitionID : Int)
    (epoch : Nat) : Metadata × Option String :=
  match getPartitionM m streamName partitionID with
  | none => (m, some "No such partition")
  | some p =>
    if epoch ≤ p.epoch then (m, none)
    else (setPartitionM m streamName partitionID ((p.addToISRp replica).setEpochP epoch),
          none)

/-- `ChangeLeader`: behind the epoch fence, set the new leader, record the new
epoch, and shift the broker leader-load counters (guarded decrement of the old
leader, increment of the new). -/
def ChangeLeader (m : Metadata) (streamName leader : String) (partitionID : Int)
    (epoch : Nat) : Metadata × Option String :=
  match getPartitionM m streamName partitionID with
  | none => (m, some "No such partition")
  | some p =>
    if epoch ≤ p.epoch then (m, none)
    else
      let m1 := setPartitionM m streamName partitionID
        ((p.setLeaderP leader epoch).setEpochP epoch)
      ({ m1 with brokerLeaderLoad := incLoad (decLoadGuard m1.brokerLeaderLoad p.leader) leader },
       none)

/-- A broker as returned on a metadata fetch. -/
structure Broker where
  id : String
  partitionCount : Int
  leaderCount : Int
deriving DecidableEq, Repr

/-- The broker-cache part of the metadata store. -/
structure BrokerCacheState where
  cachedBrokers : List Broker
  cachedServerIDs : List String
  lastCached : Int
deriving DecidableEq, Repr

/-- `serversChanged` as computed by `brokerCache`: the membership counts as
changed when the sizes differ or some current server id is missing from the
cached set. -/
def serversChanged (serverIDs cachedIDs : List String) : Bool :=
  decide (serverIDs.length ≠ cachedIDs.length) ||
    serverIDs.any (fun id => !(cachedIDs.contains id))

/-- `brokerCache`: return the cached broker list iff it is non-empty, the
membership is unchanged and the cache is no older than
`metadataCacheMaxAge`. -/
def brokerCache (st : BrokerCacheState) (serverIDs : List String) (now maxAge : Int) :
    Option (List Broker) :=
  if 0 < st.cachedBrokers.length ∧ serversChanged serverIDs st.cachedServerIDs = false ∧
      now - st.lastCached ≤ maxAge then
    some st.cachedBrokers
  else none

/-- The broker-list logic of `FetchMetadata`: use the cache when `brokerCache`
allows it, otherwise survey the peers (the responses gathered before the
deadline are passed in as `surveyed`) and refresh the cache. -/
def FetchMetadataBrokers (st : BrokerCacheState) (serverIDs : List String)
    (now maxAge : Int) (surveyed : List Broker) : BrokerCacheState × List Broker :=
  match brokerCache st serverIDs now maxAge with
  | some cached => (st, cached)
  | none =>
    ({ cachedBrokers := surveyed, cachedServerIDs := serverIDs, lastCached := now }, surveyed)

/-- The replica set and leader of one partition, as far as load accounting is
concerned. -/
structure PartInfo where
  replicas : List String
  leader : String
deriving DecidableEq, Repr

/-- The pair of in-memory broker load counter maps. -/
structure Loads where
  partitionLoad : String → Int
  leaderLoad : String → Int

/-- The load-counter effect of adding one partition (`AddStream`,
`ResumePartition`): increment the partition load of every replica and the
leader load of the leader. -/
def addPartitionLoads (ld : Loads) (pt : PartInfo) : Loads :=
  { partitionLoad := pt.replicas.foldl incLoad ld.partitionLoad
    leaderLoad := incLoad ld.leaderLoad pt.leader }

/-- The load-counter effect of removing one partition (`PausePartitions`,
`RemoveStream`): guarded decrement of the partition load of every replica and
of the leader load of the leader. -/
def removePartitionLoads (ld : Loads) (pt : PartInfo) : Loads :=
  { partitionLoad := pt.replicas.foldl decLoadGuard ld.partitionLoad
    leaderLoad := decLoadGuard ld.leaderLoad pt.leader }

/-- The load-counter effect of each metadata-store operation. -/
inductive LoadOp where
  | addStream (parts : List PartInfo)
  | resumePartition (pt : PartInfo)
  | changeLeader (oldLeader newLeader : String)
  | pausePartitions (paused : List PartInfo)
  | removeStream (parts : List PartInfo)
deriving DecidableEq, Repr

/-- Apply one operation's load-counter side effects, as performed inside the
corresponding metadata-store method. -/
def applyLoadOp (ld : Loads) : LoadOp → Loads
  | .addStream parts => parts.foldl addPartitionLoads ld
  | .resumePartition pt => addPartitionLoads ld pt
  | .changeLeader oldLeader newLeader =>
      { ld with leaderLoad := incLoad (decLoadGuard ld.leaderLoad oldLeader) newLeader }
  | .pausePartitions paused => paused.foldl removePartitionLoads ld
  | .removeStream parts => parts.foldl removePartitionLoads ld

/-- Apply a sequence of metadata-store operations. -/
def applyLoadOps (ld : Loads) (ops : List LoadOp) : Loads :=
  ops.foldl applyLoadOp ld

/-- Both load-counter maps are non-negative everywhere. -/
def Loads.NonNeg (ld : Loads) : Prop :=
  ∀ b, 0 ≤ ld.partitionLoad b ∧ 0 ≤ ld.leaderLoad b

/-- The all-zero load counters. -/
def loads0 : Loads := ⟨fun _ => 0, fun _ => 0⟩

/-- A concrete operation sequence: create a stream, move its leader, pause it,
then remove it (the last removal decrements counters already at zero). -/
def opsC10 : List LoadOp :=
  [.addStream [⟨["a", "b"], "a"⟩], .changeLeader "a" "b",
   .pausePartitions [⟨["a", "b"], "b"⟩], .removeStream [⟨["a", "b"], "b"⟩]]

/-- A cache state whose broker list is empty although the cached membership
matches the current one. -/
def stC9 : BrokerCacheState := ⟨[], ["a"], 0⟩

/-- A broker answering the survey. -/
def bC9 : Broker := ⟨"b1", 1, 1⟩

/-- A valid, fresh cache state holding one broker. -/
def stC9b : BrokerCacheState := ⟨[bC9], ["a"], 0⟩

/-- Broker partition loads for the placement witness. -/
def partLW : String → Nat := fun s => if s = "a" then 0 else if s = "b" then 1 else 2

/-- A three-broker cluster whose id list is already in ascending load order. -/
def idsW : List String := ["a", "b", "c"]

/-- A partition over brokers a, b, c (all in sync), led by a. -/
def pC5 : Partition := ⟨"foo", 0, ["a", "b", "c"], ["a", "b", "c"], "a", 3⟩

/-- A one-partition metadata store; the partition is `pC5` (epoch 3). -/
def mC6 : Metadata := ⟨[(("foo", 0), pC5)], fun _ => 0, fun _ => 1⟩

/-! ### Theorems -/

/-- Claim C2, counterexample: when the leader-epoch cache signals `-1` (here
the requested epoch equals the last cached epoch), `LastOffsetForLeaderEpoch`
returns `newestOffset()` rather than the log-end offset `newestOffset() + 1`:
on a log with records at offsets 0..2 it returns 2, not 3. -/
theorem c2_lastOffsetForLeaderEpoch_counterexample :
    cacheLastOffsetForLeaderEpoch logC2.epochCache 5 = -1 ∧
    lastOffsetForLeaderEpoch logC2 5 = 2 ∧
    newestOffset logC2 + 1 = 3 ∧
    lastOffsetForLeaderEpoch logC2 5 ≠ newestOffset logC2 + 1 := by
  refine ⟨rfl, rfl, rfl, ?_⟩
  decide

/-- Claim C2 as amended: `LastOffsetForLeaderEpoch(requestedEpoch)` returns the
`startOffset` of the least cached epoch strictly greater than `requestedEpoch`;
when the cache signals `-1` (the requested epoch equals the last cached epoch,
or no strictly greater epoch exists) it returns `newestOffset()`, one less than
the log-end offset. -/
theorem c2_lastOffsetForLeaderEpoch_amended (l : CommitLog) (epoch : Nat)
    (hsorted : l.epochCache.Pairwise (fun a b => a.epoch < b.epoch)) :
    (cacheLastOffsetForLeaderEpoch l.epochCache epoch = -1 →
      lastOffsetForLeaderEpoch l epoch = newestOffset l) ∧
    (epoch = lastLeaderEpoch l.epochCache →
      cacheLastOffsetForLeaderEpoch l.epochCache epoch = -1) ∧
    ((∀ e ∈ l.epochCache, e.epoch ≤ epoch) →
      cacheLastOffsetForLeaderEpoch l.epochCache epoch = -1) ∧
    (cacheLastOffsetForLeaderEpoch l.epochCache epoch ≠ -1 →
      ∃ e ∈ l.epochCache, epoch < e.epoch ∧
        (∀ e' ∈ l.epochCache, epoch < e'.epoch → e.epoch ≤ e'.epoch) ∧
        lastOffsetForLeaderEpoch l epoch = e.startOffset) := by
  refine ⟨?_, ?_, ?_, ?_⟩
  · intro h
    simp [lastOffsetForLeaderEpoch, h, newestOffset]
  · intro h
    simp [cacheLastOffsetForLeaderEpoch, h]
  · intro h
    unfold cacheLastOffsetForLeaderEpoch
    split
    · rfl
    · have hnil : l.epochCache.filter (fun e => decide (epoch < e.epoch)) = [] := by
        rw [List.filter_eq_nil_iff]
        intro e he
        simpa using Nat.not_lt.mpr (h e he)
      rw [hnil]
      rfl
  · intro h
    have hbranch : epoch ≠ lastLeaderEpoch l.epochCache := by
      intro heq
      exact h (by simp [cacheLastOffsetForLeaderEpoch, heq])
    cases hhd : (l.epochCache.filter (fun e => decide (epoch < e.epoch))).head? with
    | none =>
      exact absurd (by unfold cacheLastOffsetForLeaderEpoch; rw [if_neg hbranch, hhd]) h
    | some e =>
      have hval : cacheLastOffsetForLeaderEpoch l.epochCache epoch = e.startOffset := by
        unfold cacheLastOffsetForLeaderEpoch
        rw [if_neg hbranch, hhd]
      obtain ⟨ys, hys⟩ := List.head?_eq_some_iff.mp hhd
      have hmemf : e ∈ l.epochCache.filter (fun e => decide (epoch < e.epoch)) := by
        rw [hys]; exact List.mem_cons_self _ _
      have hmem : e ∈ l.epochCache := (List.mem_filter.mp hmemf).1
      have hlt : epoch < e.epoch := by
        have h2 := (List.mem_filter.mp hmemf).2
        simpa using h2
      refine ⟨e, hmem, hlt, ?_, ?_⟩
      · intro e' hmem' hlt'
        have hmemf' : e' ∈ l.epochCache.filter (fun e => decide (epoch < e.epoch)) :=
          List.mem_filter.mpr ⟨hmem', by simpa using hlt'⟩
        rw [hys] at hmemf'
        rcases List.mem_cons.mp hmemf' with rfl | hys'
        · exact le_refl _
        · have hpw : (l.epochCache.filter (fun e => decide (epoch < e.epoch))).Pairwise
              (fun a b => a.epoch < b.epoch) :=
            List.Pairwise.sublist (List.filter_sublist _) hsorted
          rw [hys] at hpw
          exact Nat.le_of_lt ((List.pairwise_cons.mp hpw).1 e' hys')
      · rw [lastOffsetForLeaderEpoch, hval, if_neg (hval ▸ h)]

/-- Witness for the amended claim C2 at a concrete input: requesting epoch 2
against the cache `[(1,0), (3,4)]` returns the start offset of epoch 3. -/
theorem c2_lastOffsetForLeaderEpoch_amended_witness :
    List.Pairwise (fun a b => a.epoch < b.epoch) logC2w.epochCache ∧
    ∃ e ∈ logC2w.epochCache, 2 < e.epoch ∧
      (∀ e' ∈ logC2w.epochCache, 2 < e'.epoch → e.epoch ≤ e'.epoch) ∧
      lastOffsetForLeaderEpoch logC2w 2 = e.startOffset :=
  ⟨by decide,
   (c2_lastOffsetForLeaderEpoch_amended logC2w 2 (by decide)).2.2.2 (by decide)⟩

/-- Claim C4: the high watermark advances monotonically through
`SetHighWatermark` — a value at most the current HW leaves the log unchanged
and notifies nobody, a strictly larger value is stored and every registered HW
waiter is notified — while `OverrideHighWatermark` stores the value
unconditionally. -/
theorem c4_highWatermark_monotonic (l : CommitLog) (hw : Int) :
    (hw ≤ l.hw → SetHighWatermark l hw = (l, [])) ∧
    (l.hw < hw →
      (SetHighWatermark l hw).1.hw = hw ∧
      (SetHighWatermark l hw).1.hwWaiters = [] ∧
      (SetHighWatermark l hw).2 = l.hwWaiters.map (fun r => (r, false))) ∧
    (OverrideHighWatermark l hw).1.hw = hw := by
  refine ⟨?_, ?_, ?_⟩
  · intro h
    rw [SetHighWatermark, if_neg (not_lt.mpr h)]
  · intro h
    rw [SetHighWatermark, if_pos h]
    exact ⟨rfl, rfl, rfl⟩
  · rfl

/-- Witness for claim C4 at concrete inputs: setting the HW of `logC2`
backwards to 1 is a no-op, and advancing `logC4` to 5 notifies waiter 7. -/
theorem c4_highWatermark_monotonic_witness :
    SetHighWatermark logC2 1 = (logC2, []) ∧
    (SetHighWatermark logC4 5).2 = [(7, false)] :=
  ⟨(c4_highWatermark_monotonic logC2 1).1 (by decide),
   by simpa using ((c4_highWatermark_monotonic logC4 5).2.1 (by decide)).2.2⟩

/-- Claim C7: `waitForHW` follows the register-or-immediate-fire policy.  A
stale HW view fires `false` immediately; a readonly log whose HW has caught up
to the log end fires `true` immediately; otherwise the reader is parked.  A
parked waiter is fired (`false`) and deregistered by an HW advance, fired
(`true`) and deregistered by a readonly transition with the HW caught up, and
is not fired by a readonly transition while the HW lags the log end. -/
theorem c7_waitForHW_policy (l : CommitLog) (r : Nat) (hw : Int) :
    (l.hw ≠ hw → waitForHW l r hw = (l, .firedFalse)) ∧
    (l.hw = hw → l.readonlyFlag = true → l.hw = newestOffset l →
      waitForHW l r hw = (l, .firedTrue)) ∧
    (l.hw = hw → ¬(l.hw = newestOffset l ∧ l.readonlyFlag = true) →
      (waitForHW l r hw).2 = .parked ∧ r ∈ (waitForHW l r hw).1.hwWaiters) ∧
    (∀ hw', l.hw < hw' → r ∈ l.hwWaiters →
      (r, false) ∈ (SetHighWatermark l hw').2 ∧
      (SetHighWatermark l hw').1.hwWaiters = []) ∧
    (r ∈ l.hwWaiters → l.hw = newestOffset l →
      (r, true) ∈ (SetReadonly l true).2 ∧ (SetReadonly l true).1.hwWaiters = []) ∧
    (l.hw < newestOffset l → (SetReadonly l true).2 = []) := by
  refine ⟨?_, ?_, ?_, ?_, ?_, ?_⟩
  · intro h
    rw [waitForHW, if_pos h]
  · intro h1 h2 h3
    rw [waitForHW, if_neg (by simp [h1]), if_pos ⟨h3, h2⟩]
  · intro h1 h2
    rw [waitForHW, if_neg (by simp [h1]), if_neg h2]
    refine ⟨rfl, ?_⟩
    by_cases hr : r ∈ l.hwWaiters <;> simp [hr]
  · intro hw' h hr
    rw [SetHighWatermark, if_pos h]
    exact ⟨List.mem_map.mpr ⟨r, hr, rfl⟩, rfl⟩
  · intro hr h
    rw [SetReadonly, if_pos rfl, notifyReadonly,
      if_neg (show ¬ (({ l with readonlyFlag := true } : CommitLog).hw <
        newestOffset { l with readonlyFlag := true }) from not_lt.mpr (le_of_eq h.symm))]
    exact ⟨List.mem_map.mpr ⟨r, hr, rfl⟩, rfl⟩
  · intro h
    rw [SetReadonly, if_pos rfl, notifyReadonly,
      if_pos (show ({ l with readonlyFlag := true } : CommitLog).hw <
        newestOffset { l with readonlyFlag := true } from h)]

/-- Witness for claim C7 at concrete inputs: a reader of `logC2` (HW 2) with a
stale view (HW 0) fires `false` at once, and waiter 7 of `logC4` is fired and
deregistered when the HW advances to 5. -/
theorem c7_waitForHW_policy_witness :
    waitForHW logC2 9 0 = (logC2, .firedFalse) ∧
    (7, false) ∈ (SetHighWatermark logC4 5).2 ∧
    (SetHighWatermark logC4 5).1.hwWaiters = [] :=
  ⟨(c7_waitForHW_policy logC2 9 0).1 (by decide),
   ((c7_waitForHW_policy logC4 7 2).2.2.2.1 5 (by decide) (by decide)).1,
   ((c7_waitForHW_policy logC4 7 2).2.2.2.1 5 (by decide) (by decide)).2⟩

/-- Claim C3: `Append` fails with the readonly error, leaving the log
untouched, whenever the log is in readonly mode, while `AppendMessageSet`
behaves identically regardless of the readonly flag (the replication-ingest
path stays open). -/
theorem c3_append_readonly_gate (l : CommitLog) (now bytes : Int)
    (msgs : List Message) (entries : List Entry) (b : Bool) :
    (l.readonlyFlag = true → Append l now msgs = (l, .error .readonlyErr)) ∧
    (AppendMessageSet { l with readonlyFlag := b } now bytes entries =
      ({ (AppendMessageSet l now bytes entries).1 with readonlyFlag := b },
       (AppendMessageSet l now bytes entries).2)) := by
  constructor
  · intro h
    rw [Append, if_pos h]
  · by_cases hs :
        (l.segments.getLast?.getD default).checkSplit now l.maxSegmentAge l.maxSegmentBytes <;>
      simp [AppendMessageSet, checkAndPerformSplit, activeSegment, hs, appendEntries,
        splitLog, newestOffset]

/-- Witness for claim C3 at a concrete input: appending a message to the
readonly `logC3` fails with the readonly error and leaves the log unchanged,
while `AppendMessageSet` on the same log ignores the readonly flag. -/
theorem c3_append_readonly_gate_witness :
    Append logC3 10 [{ offset := 3, leaderEpoch := 5, size := 10 }] =
      (logC3, .error .readonlyErr) ∧
    AppendMessageSet { logC2 with readonlyFlag := true } 10 10
        [{ offset := 3, leaderEpoch := 5, size := 10 }] =
      ({ (AppendMessageSet logC2 10 10 [{ offset := 3, leaderEpoch := 5, size := 10 }]).1
          with readonlyFlag := true },
       (AppendMessageSet logC2 10 10 [{ offset := 3, leaderEpoch := 5, size := 10 }]).2) :=
  ⟨(c3_append_readonly_gate logC3 10 10 [{ offset := 3, leaderEpoch := 5, size := 10 }] []
      true).1 rfl,
   (c3_append_readonly_gate logC2 10 10 []
      [{ offset := 3, leaderEpoch := 5, size := 10 }] true).2⟩

lemma mem_denseFrom {o : Int} : ∀ (n : Nat) (b : Int), o ∈ denseFrom b n ↔ b ≤ o ∧ o < b + n := by
  intro n
  induction n with
  | zero => intro b; simp [denseFrom]
  | succ n ih =>
    intro b
    simp only [denseFrom, List.mem_cons, ih (b + 1)]
    constructor
    · rintro (rfl | ⟨h1, h2⟩) <;> constructor <;> omega
    · rintro ⟨h1, h2⟩
      by_cases hb : o = b
      · exact Or.inl hb
      · exact Or.inr ⟨by omega, by omega⟩

lemma length_denseFrom : ∀ (n : Nat) (b : Int), (denseFrom b n).length = n := by
  intro n
  induction n with
  | zero => intro b; rfl
  | succ n ih => intro b; simp [denseFrom, ih (b + 1)]

lemma getLast?_denseFrom : ∀ (n : Nat) (b : Int), (denseFrom b (n + 1)).getLast? = some (b + n) := by
  intro n
  induction n with
  | zero => intro b; simp [denseFrom]
  | succ n ih =>
    intro b
    show (b :: denseFrom (b + 1) (n + 1)).getLast? = some (b + (n + 1))
    rw [denseFrom, List.getLast?_cons_cons, ← denseFrom, ih (b + 1)]
    rw [Option.some.injEq]
    omega

lemma Segment.WF.nextOffset_eq {s : Segment} (h : s.WF) :
    s.nextOffset = s.baseOffset + s.offsets.length := by
  rw [Segment.nextOffset]
  cases hl : s.offsets.length with
  | zero =>
    have hnil : s.offsets = [] := List.eq_nil_of_length_eq_zero hl
    rw [hnil]
    simp
  | succ n =>
    have hh : s.offsets.getLast? = some (s.baseOffset + n) := by
      conv_lhs => rw [h, hl]
      exact getLast?_denseFrom n s.baseOffset
    rw [hh]
    show s.baseOffset + (n : Int) + 1 = s.baseOffset + ((n + 1 : Nat) : Int)
    push_cast
    ring

lemma Segment.WF.base_le_next {s : Segment} (h : s.WF) : s.baseOffset ≤ s.nextOffset := by
  rw [h.nextOffset_eq]
  omega

lemma Segment.WF.mem_offsets {s : Segment} (h : s.WF) {o : Int} (ho : o ∈ s.offsets) :
    s.baseOffset ≤ o ∧ o < s.nextOffset := by
  rw [h] at ho
  rw [mem_denseFrom] at ho
  rw [h.nextOffset_eq]
  exact ho

lemma segsWF_tail {s : Segment} {rest : List Segment} (h : segsWF (s :: rest)) : segsWF rest := by
  cases rest with
  | nil => trivial
  | cons t r => exact h.2.2

lemma segsWF_mem_wf : ∀ {segs : List Segment}, segsWF segs → ∀ s ∈ segs, Segment.WF s
  | [], _, s, hs => absurd hs (List.not_mem_nil s)
  | [t], h, s, hs => by rcases List.mem_singleton.mp hs with rfl; exact h
  | t :: u :: rest, h, s, hs => by
    rcases List.mem_cons.mp hs with rfl | hs'
    · exact h.1
    · exact segsWF_mem_wf h.2.2 s hs'

lemma findSegmentIdx_spec :
    ∀ {segs : List Segment} {O : Int} {idx : Nat}, segsWF segs →
      findSegmentIdx segs O = some idx →
      ∃ seg, segs[idx]? = some seg ∧
        seg.baseOffset ≤ O ∧ O < seg.nextOffset ∧
        (∀ s ∈ segs.take idx, s.nextOffset ≤ seg.baseOffset) ∧
        (∀ t, (segs.take idx).getLast? = some t → t.nextOffset = seg.baseOffset) := by
  intro segs
  induction segs with
  | nil => intro O idx _ h; simp [findSegmentIdx] at h
  | cons s rest ih =>
    intro O idx hwf h
    rw [findSegmentIdx] at h
    by_cases hc : s.baseOffset ≤ O ∧ O < s.nextOffset
    · rw [if_pos hc] at h
      obtain rfl : (0 : Nat) = idx := by simpa using h
      exact ⟨s, by simp, hc.1, hc.2, by simp, by simp⟩
    · rw [if_neg hc] at h
      obtain ⟨i, hi, rfl⟩ : ∃ i, findSegmentIdx rest O = some i ∧ idx = i + 1 := by
        cases hfi : findSegmentIdx rest O with
        | none => rw [hfi] at h; simp at h
        | some i =>
          rw [hfi] at h
          simp only [Option.map_some'] at h
          exact ⟨i, rfl, (Option.some.injEq _ _ ▸ h).symm⟩
      have hwfr : segsWF rest := segsWF_tail hwf
      obtain ⟨seg, hget, hle, hlt, hall, hlast⟩ := ih hwfr hi
      cases rest with
      | nil => simp [findSegmentIdx] at hi
      | cons t r =>
        have hchain : t.baseOffset = s.nextOffset := hwf.2.1
        refine ⟨seg, by simpa using hget, hle, hlt, ?_, ?_⟩
        · intro x hx
          rw [List.take_succ_cons] at hx
          rcases List.mem_cons.mp hx with rfl | hx'
          · cases i with
            | zero =>
              obtain rfl : t = seg := by simpa using hget
              exact le_of_eq hchain.symm
            | succ j =>
              have h2 : t.baseOffset ≤ t.nextOffset :=
                (segsWF_mem_wf hwfr t (by simp)).base_le_next
              have h3 : t.nextOffset ≤ seg.baseOffset := by
                refine hall t ?_
                rw [List.take_succ_cons]
                exact List.mem_cons_self _ _
              omega
          · exact hall x hx'
        · intro u hu
          rw [List.take_succ_cons] at hu
          cases htk : (t :: r).take i with
          | nil =>
            rw [htk] at hu
            obtain rfl : s = u := by simpa using hu
            obtain rfl : i = 0 := by
              rcases (List.take_eq_nil_iff).mp htk with h0 | h0
              · exact h0
              · exact absurd h0 (by simp)
            obtain rfl : t = seg := by simpa using hget
            exact hchain ▸ rfl
          | cons v vs =>
            rw [htk] at hu
            rw [List.getLast?_cons_cons] at hu
            exact hlast u (htk ▸ hu)

lemma denseFrom_takeWhile_filter (O : Int) :
    ∀ (n : Nat) (b : Int),
      (denseFrom b n).takeWhile (fun o => decide (o < O)) =
        (denseFrom b n).filter (fun o => decide (o < O)) := by
  intro n
  induction n with
  | zero => intro b; rfl
  | succ n ih =>
    intro b
    show (b :: denseFrom (b + 1) n).takeWhile _ = (b :: denseFrom (b + 1) n).filter _
    by_cases hb : b < O
    · simp only [List.takeWhile_cons, List.filter_cons, decide_eq_true hb, ih (b + 1)]
      simp
    · have hnil : (denseFrom (b + 1) n).filter (fun o => decide (o < O)) = [] := by
        rw [List.filter_eq_nil_iff]
        intro o ho
        rw [mem_denseFrom] at ho
        simp only [decide_eq_true_eq]
        omega
      simp [List.takeWhile_cons, List.filter_cons, hb, hnil]

lemma Segment.WF.takeWhile_eq_filter {s : Segment} (h : s.WF) (O : Int) :
    s.offsets.takeWhile (fun o => decide (o < O)) =
      s.offsets.filter (fun o => decide (o < O)) := by
  conv_lhs => rw [h]
  conv_rhs => rw [h]
  exact denseFrom_takeWhile_filter O _ _

/-- Claim C1: `Truncate(O)` is a no-op when no segment contains `O`; otherwise
it retains exactly the segments preceding the one containing `O`, deletes that
segment when `O` equals its base offset and it is not the first segment, and
otherwise replaces it by a rewrite keeping exactly the records with offset
less than `O`; the leader-epoch cache is cleared at `O`, and afterwards
`newestOffset() < O` and no record with offset at least `O` survives in any
segment. -/
theorem c1_truncate_correct (l : CommitLog) (O : Int) (hwf : segsWF l.segments) :
    (findSegmentIdx l.segments O = none → Truncate l O = l) ∧
    (∀ idx, findSegmentIdx l.segments O = some idx →
      (Truncate l O).epochCache = clearLatest l.epochCache O ∧
      (Truncate l O).segments ≠ [] ∧
      newestOffset (Truncate l O) < O ∧
      (∀ s ∈ (Truncate l O).segments, ∀ o ∈ s.offsets, o < O) ∧
      (∀ seg, l.segments[idx]? = some seg →
        (seg.baseOffset = O ∧ idx ≠ 0 →
          (Truncate l O).segments = l.segments.take idx) ∧
        (¬(seg.baseOffset = O ∧ idx ≠ 0) →
          (Truncate l O).segments = l.segments.take idx ++ [seg.truncatedSeg O] ∧
          (seg.truncatedSeg O).offsets = seg.offsets.filter (fun o => decide (o < O))))) := by
  constructor
  · intro h
    rw [Truncate, truncateSegments, h]
  · intro idx hidx
    obtain ⟨seg, hget, hle, hlt, hall, hlast⟩ := findSegmentIdx_spec hwf hidx
    have hsegd : (l.segments[idx]?).getD default = seg := by rw [hget]; rfl
    have hwfseg : seg.WF := segsWF_mem_wf hwf seg (List.getElem?_mem hget)
    have hlen : idx < l.segments.length := by
      by_contra hcon
      rw [List.getElem?_eq_none (Nat.le_of_not_lt hcon)] at hget
      exact Option.noConfusion hget
    have htake_lt : ∀ s ∈ l.segments.take idx, ∀ o ∈ s.offsets, o < O := by
      intro s hs o ho
      have hswf : s.WF := segsWF_mem_wf hwf s (List.take_subset _ _ hs)
      have h1 := (hswf.mem_offsets ho).2
      have h2 := hall s hs
      omega
    have htrunc_lt : ∀ o ∈ (seg.truncatedSeg O).offsets, o < O := by
      intro o ho
      have := List.mem_takeWhile_imp ho
      simpa using this
    by_cases hb : seg.baseOffset = O ∧ idx ≠ 0
    · -- delete case
      have hs' : (Truncate l O).segments = l.segments.take idx := by
        rw [Truncate, truncateSegments, hidx]
        simp only [hsegd]
        rw [if_pos hb]
      have hne : l.segments.take idx ≠ [] := by
        intro hnil
        rcases List.take_eq_nil_iff.mp hnil with h0 | h0
        · exact hb.2 h0
        · rw [h0] at hlen; simp at hlen
      refine ⟨by rw [Truncate, truncateSegments, hidx]; simp only [hsegd]; rw [if_pos hb],
        by rw [hs']; exact hne, ?_, ?_, ?_⟩
      · -- newestOffset < O
        obtain ⟨t, ht⟩ := Option.isSome_iff_exists.mp
          (List.getLast?_isSome.mpr hne)
        have htn : t.nextOffset = seg.baseOffset := hlast t ht
        rw [newestOffset, activeSegment, hs', List.getLastD_eq_getLast?, ht]
        simp only [Option.getD_some]
        omega
      · intro s hs
        rw [hs'] at hs
        exact htake_lt s hs
      · intro seg' hget'
        obtain rfl : seg = seg' := by rw [hget] at hget'; simpa using hget'
        exact ⟨fun _ => hs', fun hnb => absurd hb hnb⟩
    · -- replace case
      have hs' : (Truncate l O).segments = l.segments.take idx ++ [seg.truncatedSeg O] := by
        rw [Truncate, truncateSegments, hidx]
        simp only [hsegd]
        rw [if_neg hb]
      refine ⟨by rw [Truncate, truncateSegments, hidx]; simp only [hsegd]; rw [if_neg hb],
        by rw [hs']; simp, ?_, ?_, ?_⟩
      · -- newestOffset < O
        rw [newestOffset, activeSegment, hs', List.getLastD_eq_getLast?,
          List.getLast?_concat]
        simp only [Option.getD_some]
        rw [Segment.nextOffset]
        cases hlast2 : (seg.truncatedSeg O).offsets.getLast? with
        | none =>
          show seg.baseOffset - 1 < O
          omega
        | some o =>
          have ho : o ∈ (seg.truncatedSeg O).offsets := List.mem_of_getLast?_eq_some hlast2
          have := htrunc_lt o ho
          show o + 1 - 1 < O
          omega
      · intro s hs
        rw [hs'] at hs
        rcases List.mem_append.mp hs with hs1 | hs2
        · exact htake_lt s hs1
        · obtain rfl : s = seg.truncatedSeg O := by simpa using hs2
          exact htrunc_lt
      · intro seg' hget'
        obtain rfl : seg = seg' := by rw [hget] at hget'; simpa using hget'
        exact ⟨fun hb' => absurd hb' hb,
          fun _ => ⟨hs', hwfseg.takeWhile_eq_filter O⟩⟩

/-- Witness for claim C1 at a concrete input: truncating `logC1` (records
0..3 over two segments) at offset 3 rewrites the second segment to hold only
record 2, drops the epoch-cache entry starting at 3, and leaves
`newestOffset() = 2 < 3`. -/
theorem c1_truncate_correct_witness :
    findSegmentIdx logC1.segments 3 = some 1 ∧
    ((Truncate logC1 3).epochCache = clearLatest logC1.epochCache 3 ∧
      (Truncate logC1 3).segments ≠ [] ∧
      newestOffset (Truncate logC1 3) < 3 ∧
      (∀ s ∈ (Truncate logC1 3).segments, ∀ o ∈ s.offsets, o < 3)) :=
  ⟨by decide,
   by
    have h := ((c1_truncate_correct logC1 3 (by decide)).2 1 (by decide))
    exact ⟨h.1, h.2.1, h.2.2.1, h.2.2.2.1⟩⟩

lemma incLoad_nonneg {f : String → Int} (h : ∀ x, 0 ≤ f x) (b : String) :
    ∀ x, 0 ≤ incLoad f b x := by
  intro x
  unfold incLoad
  split
  · have := h x
    omega
  · exact h x

lemma decLoadGuard_nonneg {f : String → Int} (h : ∀ x, 0 ≤ f x) (b : String) :
    ∀ x, 0 ≤ decLoadGuard f b x := by
  intro x
  unfold decLoadGuard
  split
  · split
    · omega
    · exact h b
  · exact h x

lemma foldl_incLoad_nonneg :
    ∀ (bs : List String) (f : String → Int), (∀ x, 0 ≤ f x) →
      ∀ x, 0 ≤ (bs.foldl incLoad f) x := by
  intro bs
  induction bs with
  | nil => intro f h; exact h
  | cons b bs ih => intro f h; exact ih _ (incLoad_nonneg h b)

lemma foldl_decLoadGuard_nonneg :
    ∀ (bs : List String) (f : String → Int), (∀ x, 0 ≤ f x) →
      ∀ x, 0 ≤ (bs.foldl decLoadGuard f) x := by
  intro bs
  induction bs with
  | nil => intro f h; exact h
  | cons b bs ih => intro f h; exact ih _ (decLoadGuard_nonneg h b)

lemma addPartitionLoads_nonneg {ld : Loads} (h : ld.NonNeg) (pt : PartInfo) :
    (addPartitionLoads ld pt).NonNeg := by
  intro b
  exact ⟨foldl_incLoad_nonneg pt.replicas _ (fun x => (h x).1) b,
    incLoad_nonneg (fun x => (h x).2) pt.leader b⟩

lemma removePartitionLoads_nonneg {ld : Loads} (h : ld.NonNeg) (pt : PartInfo) :
    (removePartitionLoads ld pt).NonNeg := by
  intro b
  exact ⟨foldl_decLoadGuard_nonneg pt.replicas _ (fun x => (h x).1) b,
    decLoadGuard_nonneg (fun x => (h x).2) pt.leader b⟩

lemma foldl_addPartitionLoads_nonneg :
    ∀ (pts : List PartInfo) {ld : Loads}, ld.NonNeg →
      (pts.foldl addPartitionLoads ld).NonNeg := by
  intro pts
  induction pts with
  | nil => intro ld h; exact h
  | cons pt pts ih => intro ld h; exact ih (addPartitionLoads_nonneg h pt)

lemma foldl_removePartitionLoads_nonneg :
    ∀ (pts : List PartInfo) {ld : Loads}, ld.NonNeg →
      (pts.foldl removePartitionLoads ld).NonNeg := by
  intro pts
  induction pts with
  | nil => intro ld h; exact h
  | cons pt pts ih => intro ld h; exact ih (removePartitionLoads_nonneg h pt)

lemma applyLoadOp_nonneg {ld : Loads} (h : ld.NonNeg) (op : LoadOp) :
    (applyLoadOp ld op).NonNeg := by
  cases op with
  | addStream parts => exact foldl_addPartitionLoads_nonneg parts h
  | resumePartition pt => exact addPartitionLoads_nonneg h pt
  | changeLeader oldLeader newLeader =>
    intro b
    exact ⟨(h b).1,
      incLoad_nonneg (decLoadGuard_nonneg (fun x => (h x).2) oldLeader) newLeader b⟩
  | pausePartitions paused => exact foldl_removePartitionLoads_nonneg paused h
  | removeStream parts => exact foldl_removePartitionLoads_nonneg parts h

/-- Claim C10: under any sequence of metadata-store operations the per-broker
partition-load and leader-load counters stay non-negative, and a guarded
decrement leaves a counter that is already at zero unchanged. -/
theorem c10_load_counters_nonneg (ld : Loads) (ops : List LoadOp) (h : ld.NonNeg) :
    (applyLoadOps ld ops).NonNeg ∧
    (∀ (f : String → Int) (b : String), f b = 0 → decLoadGuard f b = f) := by
  constructor
  · unfold applyLoadOps
    induction ops generalizing ld with
    | nil => exact h
    | cons op ops ih => exact ih _ (applyLoadOp_nonneg h op)
  · intro f b hf
    funext x
    by_cases hx : x = b <;> simp [decLoadGuard, hx, hf]

/-- Witness for claim C10 at a concrete input: after creating, re-leading,
pausing and removing a stream the counters are back at zero, not negative. -/
theorem c10_load_counters_nonneg_witness :
    (applyLoadOps loads0 opsC10).partitionLoad "a" = 0 ∧
    (applyLoadOps loads0 opsC10).NonNeg :=
  ⟨by decide,
   (c10_load_counters_nonneg loads0 opsC10 (fun _ => ⟨le_refl 0, le_refl 0⟩)).1⟩

/-- Claim C9, counterexample: with an empty cached broker list, unchanged
membership, and a fresh cache, `FetchMetadata` still surveys the peers — the
claim's "if and only if (a) and (b)" omits the non-empty-cache condition
`len(m.cachedBrokers) > 0` that the code also requires. -/
theorem c9_brokerCache_counterexample :
    serversChanged ["a"] stC9.cachedServerIDs = false ∧
    (0 : Int) - stC9.lastCached ≤ 10 ∧
    brokerCache stC9 ["a"] 0 10 = none ∧
    FetchMetadataBrokers stC9 ["a"] 0 10 [bC9] =
      ({ cachedBrokers := [bC9], cachedServerIDs := ["a"], lastCached := 0 }, [bC9]) ∧
    [bC9] ≠ stC9.cachedBrokers := by
  refine ⟨by decide, by decide, by decide, ?_, by decide⟩
  rfl

/-- Claim C9 as amended: `FetchMetadata` returns the cached broker list if and
only if the cached list is non-empty, the cluster membership is unchanged, and
the cache is no older than `metadataCacheMaxAge`; otherwise it surveys the
peers and refreshes the cache with the gathered responses.  With duplicate-free
id lists, "membership unchanged" coincides with equality of the id sets. -/
theorem c9_brokerCache_amended (st : BrokerCacheState) (serverIDs : List String)
    (now maxAge : Int) (surveyed : List Broker) :
    (brokerCache st serverIDs now maxAge = some st.cachedBrokers ↔
      st.cachedBrokers ≠ [] ∧ serversChanged serverIDs st.cachedServerIDs = false ∧
        now - st.lastCached ≤ maxAge) ∧
    (brokerCache st serverIDs now maxAge = none →
      FetchMetadataBrokers st serverIDs now maxAge surveyed =
        ({ cachedBrokers := surveyed, cachedServerIDs := serverIDs, lastCached := now },
         surveyed)) ∧
    (∀ bl, brokerCache st serverIDs now maxAge = some bl →
      FetchMetadataBrokers st serverIDs now maxAge surveyed = (st, st.cachedBrokers)) ∧
    (serverIDs.Nodup → st.cachedServerIDs.Nodup →
      (serversChanged serverIDs st.cachedServerIDs = false ↔
        ∀ x, x ∈ serverIDs ↔ x ∈ st.cachedServerIDs)) := by
  refine ⟨?_, ?_, ?_, ?_⟩
  · rw [brokerCache]
    by_cases hc : 0 < st.cachedBrokers.length ∧
        serversChanged serverIDs st.cachedServerIDs = false ∧ now - st.lastCached ≤ maxAge
    · rw [if_pos hc]
      exact ⟨fun _ => ⟨List.length_pos.mp hc.1, hc.2.1, hc.2.2⟩, fun _ => rfl⟩
    · rw [if_neg hc]
      constructor
      · intro h
        exact absurd h (by simp)
      · intro hr
        exact absurd ⟨List.length_pos.mpr hr.1, hr.2.1, hr.2.2⟩ hc
  · intro h
    unfold FetchMetadataBrokers
    rw [h]
  · intro bl h
    have hbl : bl = st.cachedBrokers := by
      unfold brokerCache at h
      split at h
      · exact (Option.some.inj h).symm
      · exact absurd h (by simp)
    unfold FetchMetadataBrokers
    rw [h, hbl]
  · intro h1 h2
    constructor
    · intro hch x
      have hlen : serverIDs.length = st.cachedServerIDs.length := by
        by_contra hne
        unfold serversChanged at hch
        rw [decide_eq_true hne] at hch
        simp at hch
      have hsub : serverIDs ⊆ st.cachedServerIDs := by
        intro a ha
        unfold serversChanged at hch
        rw [Bool.or_eq_false_iff] at hch
        have := List.any_eq_false.mp hch.2 a ha
        simpa using this
      have hperm : List.Perm serverIDs st.cachedServerIDs :=
        (List.subperm_of_subset h1 hsub).perm_of_length_le (le_of_eq hlen.symm)
      exact hperm.mem_iff
    · intro hiff
      have hperm : List.Perm serverIDs st.cachedServerIDs :=
        (List.perm_ext_iff_of_nodup h1 h2).mpr hiff
      unfold serversChanged
      rw [Bool.or_eq_false_iff]
      constructor
      · simp [hperm.length_eq]
      · rw [List.any_eq_false]
        intro a ha
        simpa using (hiff a).mp ha

/-- Witness for the amended claim C9 at a concrete input: a non-empty, fresh
cache with unchanged membership is returned without a survey. -/
theorem c9_brokerCache_amended_witness :
    brokerCache stC9b ["a"] 5 10 = some stC9b.cachedBrokers ∧
    FetchMetadataBrokers stC9b ["a"] 5 10 [] = (stC9b, stC9b.cachedBrokers) :=
  ⟨(c9_brokerCache_amended stC9b ["a"] 5 10 []).1.mpr (by decide),
   (c9_brokerCache_amended stC9b ["a"] 5 10 []).2.2.1 _
     ((c9_brokerCache_amended stC9b ["a"] 5 10 []).1.mpr (by decide))⟩

lemma sortByLoad_sorted (load : String → Nat) (ids : List String) :
    (sortByLoad load ids).Pairwise (fun a b => load a ≤ load b) := by
  have h : (ids.mergeSort (fun a b => decide (load a ≤ load b))).Pairwise
      (fun a b => decide (load a ≤ load b)) :=
    List.sorted_mergeSort
      (by intro a b c hab hbc; simp only [decide_eq_true_eq] at hab hbc ⊢; omega)
      (by intro a b; simp only [Bool.or_eq_true, decide_eq_true_eq]; omega)
      ids
  exact h.imp (by intro a b hab; simpa using hab)

lemma sortByLoad_perm (load : String → Nat) (ids : List String) :
    List.Perm (sortByLoad load ids) ids :=
  List.mergeSort_perm ids _

lemma mem_sortByLoad {load : String → Nat} {ids : List String} {x : String} :
    x ∈ sortByLoad load ids ↔ x ∈ ids :=
  (sortByLoad_perm load ids).mem_iff

lemma selectPartitionLeader_spec (leaderLoad : String → Nat) {replicas : List String}
    (h : replicas ≠ []) :
    selectPartitionLeader leaderLoad replicas ∈ replicas ∧
    ∀ x ∈ replicas, leaderLoad (selectPartitionLeader leaderLoad replicas) ≤ leaderLoad x := by
  have hne : sortByLoad leaderLoad replicas ≠ [] := by
    intro hnil
    exact h ((hnil ▸ sortByLoad_perm leaderLoad replicas).symm.eq_nil)
  obtain ⟨hd, tl, hcons⟩ := List.exists_cons_of_ne_nil hne
  have hsel : selectPartitionLeader leaderLoad replicas = hd := by
    rw [selectPartitionLeader, hcons]
    rfl
  have hmemhd : hd ∈ replicas := by
    have hh : hd ∈ sortByLoad leaderLoad replicas := by
      rw [hcons]
      exact List.mem_cons_self _ _
    exact mem_sortByLoad.mp hh
  refine ⟨hsel ▸ hmemhd, ?_⟩
  intro x hx
  rw [hsel]
  have hxs : x ∈ sortByLoad leaderLoad replicas := mem_sortByLoad.mpr hx
  rw [hcons] at hxs
  rcases List.mem_cons.mp hxs with rfl | hxtl
  · exact le_refl _
  · have hp := sortByLoad_sorted leaderLoad replicas
    rw [hcons] at hp
    exact (List.pairwise_cons.mp hp).1 x hxtl

/-- Claim C8: replica placement picks the `replicationFactor` brokers with the
lowest partition counts — the selection is a prefix of the stable ascending
ranking, has exactly the requested size, is sorted by partition load, and every
selected broker's load is at most every excluded broker's load — and the
partition leader is chosen among the selected replicas as one with the lowest
leader count. -/
theorem c8_replica_placement (partitionLoad leaderLoad : String → Nat)
    (ids replicas : List String) (rf : Int) :
    (∀ sel, getPartitionReplicas partitionLoad ids rf = .ok sel →
      sel = (sortByLoad partitionLoad ids).take
          (if rf = -1 then (ids.length : Int) else rf).toNat ∧
      (sel.length : Int) = (if rf = -1 then (ids.length : Int) else rf) ∧
      (∀ a ∈ sel, a ∈ ids) ∧
      sel.Pairwise (fun a b => partitionLoad a ≤ partitionLoad b) ∧
      (∀ a ∈ sel, ∀ c ∈ ids, c ∉ sel → partitionLoad a ≤ partitionLoad c)) ∧
    (replicas ≠ [] →
      selectPartitionLeader leaderLoad replicas ∈ replicas ∧
      ∀ x ∈ replicas, leaderLoad (selectPartitionLeader leaderLoad replicas) ≤ leaderLoad x) := by
  constructor
  · intro sel hsel
    rw [getPartitionReplicas] at hsel
    set rf' := if rf = -1 then (ids.length : Int) else rf with hrf
    by_cases h1 : rf' ≤ 0
    · rw [if_pos h1] at hsel
      simp at hsel
    rw [if_neg h1] at hsel
    by_cases h2 : (ids.length : Int) < rf'
    · rw [if_pos h2] at hsel
      simp at hsel
    rw [if_neg h2] at hsel
    have hsel' : sel = (sortByLoad partitionLoad ids).take rf'.toNat := by
      simpa using hsel.symm
    have hlen_sorted : (sortByLoad partitionLoad ids).length = ids.length := by
      exact (sortByLoad_perm partitionLoad ids).length_eq
    have htn : rf'.toNat ≤ ids.length := by omega
    refine ⟨hsel', ?_, ?_, ?_, ?_⟩
    · rw [hsel', List.length_take, hlen_sorted]
      omega
    · intro a ha
      rw [hsel'] at ha
      exact mem_sortByLoad.mp (List.take_subset _ _ ha)
    · rw [hsel']
      exact (sortByLoad_sorted partitionLoad ids).sublist (List.take_sublist _ _)
    · intro a ha c hc hcn
      rw [hsel'] at ha hcn
      have hp := sortByLoad_sorted partitionLoad ids
      rw [← List.take_append_drop rf'.toNat (sortByLoad partitionLoad ids)] at hp
      have hcross := (List.pairwise_append.mp hp).2.2
      have hcs : c ∈ sortByLoad partitionLoad ids := mem_sortByLoad.mpr hc
      rw [← List.take_append_drop rf'.toNat (sortByLoad partitionLoad ids)] at hcs
      rcases List.mem_append.mp hcs with hcl | hcr
      · exact absurd hcl hcn
      · exact hcross a ha c hcr
  · intro h
    exact selectPartitionLeader_spec leaderLoad h

/-- Witness for claim C8 at a concrete input: with loads a=0, b=1, c=2 and
replication factor 2, brokers a and b are selected, the excluded broker c has
a load at least that of every selected broker, and the selected leader is one
of the cluster's brokers with minimal leader load. -/
theorem c8_replica_placement_witness :
    getPartitionReplicas partLW idsW 2 = .ok ["a", "b"] ∧
    (∀ a ∈ (["a", "b"] : List String), ∀ c ∈ idsW, c ∉ (["a", "b"] : List String) →
      partLW a ≤ partLW c) ∧
    selectPartitionLeader partLW idsW ∈ idsW ∧
    (∀ x ∈ idsW, partLW (selectPartitionLeader partLW idsW) ≤ partLW x) := by
  have hsort : sortByLoad partLW idsW = idsW :=
    List.mergeSort_of_sorted (by decide)
  have hok : getPartitionReplicas partLW idsW 2 = .ok ["a", "b"] := by
    rw [getPartitionReplicas]
    rw [if_neg (by decide), if_neg (by decide), hsort]
    rfl
  refine ⟨hok, ((c8_replica_placement partLW partLW idsW idsW 2).1 _ hok).2.2.2.2, ?_, ?_⟩
  · exact ((c8_replica_placement partLW partLW idsW idsW 2).2 (by decide)).1
  · exact ((c8_replica_placement partLW partLW idsW idsW 2).2 (by decide)).2

lemma lookup_expireLeaderReport (reports : List ((String × Int) × LeaderReport))
    (key : String × Int) :
    List.lookup key (expireLeaderReport reports key) = none := by
  induction reports with
  | nil => rfl
  | cons kv rest ih =>
    obtain ⟨k, v⟩ := kv
    unfold expireLeaderReport at ih ⊢
    rw [List.filter_cons]
    by_cases h : k = key
    · have hd : (decide ((k, v).1 ≠ key)) = false := by simp [h]
      rw [hd]
      simp only [Bool.false_eq_true, if_false]
      exact ih
    · have hd : (decide ((k, v).1 ≠ key)) = true := by simp [h]
      rw [hd, if_pos rfl]
      have hk : (key == k) = false := by
        simp only [beq_eq_false_iff_ne, ne_eq]
        exact fun he => h he.symm
      simp only [List.lookup, hk]
      exact ih

/-- Claim C5: `addWitness` records the replica in the (duplicate-free) witness
set; when the count exceeds half of the ISR size minus one a new leader
election restricted to the ISR is triggered — failing with the
No-ISR-candidates error when the ISR minus the current leader is empty —
otherwise the expiry timer is reset or started; timer expiry drops the
partition's witness set from the registry. -/
theorem c5_report_leader_quorum (leaderLoad : String → Nat) (rep : LeaderReport)
    (p : Partition) (replica : String) (hnodup : rep.witnessReplicas.Nodup) :
    ((addWitness leaderLoad rep p replica).1.witnessReplicas.Nodup ∧
      replica ∈ (addWitness leaderLoad rep p replica).1.witnessReplicas) ∧
    ((p.isr.length - 1) / 2 <
        (addWitness leaderLoad rep p replica).1.witnessReplicas.length →
      (addWitness leaderLoad rep p replica).2 =
        .elect (electNewPartitionLeader leaderLoad p)) ∧
    (¬ (p.isr.length - 1) / 2 <
        (addWitness leaderLoad rep p replica).1.witnessReplicas.length →
      (addWitness leaderLoad rep p replica).1.timerSet = true ∧
      ((addWitness leaderLoad rep p replica).2 = .timerReset ∨
        (addWitness leaderLoad rep p replica).2 = .timerStarted)) ∧
    (∀ v, electNewPartitionLeader leaderLoad p = .ok v → v ∈ p.isr ∧ v ≠ p.leader) ∧
    (p.isr.filter (fun c => decide (c ≠ p.leader)) = [] →
      electNewPartitionLeader leaderLoad p = .error "No ISR candidates") ∧
    (∀ reports key, List.lookup key (expireLeaderReport reports key) = none) := by
  have hws : (addWitness leaderLoad rep p replica).1.witnessReplicas =
      (if replica ∈ rep.witnessReplicas then rep.witnessReplicas
       else rep.witnessReplicas ++ [replica]) := by
    rw [addWitness]
    repeat' split
    all_goals rfl
  refine ⟨⟨?_, ?_⟩, ?_, ?_, ?_, ?_, ?_⟩
  · rw [hws]
    by_cases hm : replica ∈ rep.witnessReplicas
    · rw [if_pos hm]
      exact hnodup
    · rw [if_neg hm]
      simp [List.nodup_append, hnodup, hm]
  · rw [hws]
    by_cases hm : replica ∈ rep.witnessReplicas
    · rw [if_pos hm]
      exact hm
    · rw [if_neg hm]
      simp
  · intro hq
    rw [hws] at hq
    rw [addWitness, if_pos hq]
  · intro hq
    rw [hws] at hq
    rw [addWitness, if_neg hq]
    by_cases ht : rep.timerSet
    · rw [if_pos ht]
      exact ⟨ht, Or.inl rfl⟩
    · rw [if_neg ht]
      exact ⟨rfl, Or.inr rfl⟩
  · intro v hv
    rw [electNewPartitionLeader] at hv
    by_cases h1 : p.isr.length ≤ 1
    · rw [if_pos h1] at hv
      simp at hv
    rw [if_neg h1] at hv
    by_cases h2 : (p.isr.filter (fun c => decide (c ≠ p.leader))).length = 0
    · rw [if_pos h2] at hv
      simp at hv
    rw [if_neg h2] at hv
    have hne : p.isr.filter (fun c => decide (c ≠ p.leader)) ≠ [] := by
      intro hc
      exact h2 (by rw [hc]; rfl)
    obtain rfl : selectPartitionLeader leaderLoad
        (p.isr.filter (fun c => decide (c ≠ p.leader))) = v := by
      simpa using hv
    have hmem := (selectPartitionLeader_spec leaderLoad hne).1
    have := List.mem_filter.mp hmem
    exact ⟨this.1, by simpa using this.2⟩
  · intro hempty
    rw [electNewPartitionLeader]
    by_cases h1 : p.isr.length ≤ 1
    · rw [if_pos h1]
    · rw [if_neg h1, hempty]
      rfl
  · exact lookup_expireLeaderReport

/-- Witness for claim C5 at a concrete input: on partition `pC5` (ISR size 3)
a first witness does not reach the quorum of two, so the timer is started; the
election helper, when it succeeds, picks a non-leader ISR member. -/
theorem c5_report_leader_quorum_witness :
    (addWitness partLW ⟨[], false⟩ pC5 "b").2 = .timerStarted ∧
    (addWitness partLW ⟨["b"], true⟩ pC5 "c").2 =
      .elect (electNewPartitionLeader partLW pC5) ∧
    (∀ v, electNewPartitionLeader partLW pC5 = .ok v → v ∈ pC5.isr ∧ v ≠ pC5.leader) := by
  refine ⟨rfl, ?_, (c5_report_leader_quorum partLW ⟨[], false⟩ pC5 "b" (by decide)).2.2.2.1⟩
  exact (c5_report_leader_quorum partLW ⟨["b"], true⟩ pC5 "c" (by decide)).2.1 (by decide)

lemma lookup_map_update (key : String × Int) (p : Partition) :
    ∀ (parts : List ((String × Int) × Partition)),
      List.lookup key (parts.map (fun kv => if kv.1 = key then (key, p) else kv)) =
        (List.lookup key parts).map (fun _ => p) := by
  intro parts
  induction parts with
  | nil => rfl
  | cons kv rest ih =>
    obtain ⟨k, v⟩ := kv
    rw [List.map_cons]
    by_cases h : k = key
    · subst h
      rw [if_pos rfl]
      simp [List.lookup]
    · rw [if_neg (by simpa using h)]
      have hk : (key == k) = false := by
        simp only [beq_eq_false_iff_ne, ne_eq]
        exact fun he => h he.symm
      simp only [List.lookup, hk]
      exact ih

lemma getPartitionM_setPartitionM (m : Metadata) (streamName : String) (partitionID : Int)
    (p : Partition) :
    getPartitionM (setPartitionM m streamName partitionID p) streamName partitionID =
      (getPartitionM m streamName partitionID).map (fun _ => p) := by
  unfold getPartitionM setPartitionM
  exact lookup_map_update (streamName, partitionID) p m.parts

/-- Claim C6: the partition epoch is an idempotency fence for `RemoveFromISR`,
`AddToISR` and `ChangeLeader` — a supplied epoch at most the partition's
current epoch leaves the whole store unchanged and returns no error; a strictly
greater epoch installs the mutated partition carrying the supplied epoch, so
the epoch never decreases; and applying the same entry twice equals applying it
once. -/
theorem c6_epoch_fence (m : Metadata) (streamName replica leader : String)
    (partitionID : Int) (epoch : Nat) :
    (∀ p, getPartitionM m streamName partitionID = some p → epoch ≤ p.epoch →
      RemoveFromISR m streamName replica partitionID epoch = (m, none) ∧
      AddToISR m streamName replica partitionID epoch = (m, none) ∧
      ChangeLeader m streamName leader partitionID epoch = (m, none)) ∧
    (∀ p, getPartitionM m streamName partitionID = some p → p.epoch < epoch →
      getPartitionM (RemoveFromISR m streamName replica partitionID epoch).1 streamName
          partitionID = some ((p.removeFromISRp replica).setEpochP epoch) ∧
      getPartitionM (AddToISR m streamName replica partitionID epoch).1 streamName
          partitionID = some ((p.addToISRp replica).setEpochP epoch) ∧
      getPartitionM (ChangeLeader m streamName leader partitionID epoch).1 streamName
          partitionID = some ((p.setLeaderP leader epoch).setEpochP epoch)) ∧
    (∀ p q, getPartitionM m streamName partitionID = some p →
      (getPartitionM (RemoveFromISR m streamName replica partitionID epoch).1 streamName
          partitionID = some q → p.epoch ≤ q.epoch) ∧
      (getPartitionM (AddToISR m streamName replica partitionID epoch).1 streamName
          partitionID = some q → p.epoch ≤ q.epoch) ∧
      (getPartitionM (ChangeLeader m streamName leader partitionID epoch).1 streamName
          partitionID = some q → p.epoch ≤ q.epoch)) ∧
    (RemoveFromISR (RemoveFromISR m streamName replica partitionID epoch).1 streamName replica
        partitionID epoch = RemoveFromISR m streamName replica partitionID epoch) ∧
    (AddToISR (AddToISR m streamName replica partitionID epoch).1 streamName replica
        partitionID epoch = AddToISR m streamName replica partitionID epoch) ∧
    (ChangeLeader (ChangeLeader m streamName leader partitionID epoch).1 streamName leader
        partitionID epoch = ChangeLeader m streamName leader partitionID epoch) := by
  refine ⟨?_, ?_, ?_, ?_, ?_, ?_⟩
  · intro p hp he
    refine ⟨?_, ?_, ?_⟩
    · simp [RemoveFromISR, hp, he]
    · simp [AddToISR, hp, he]
    · simp [ChangeLeader, hp, he]
  · intro p hp hlt
    have hnle : ¬ epoch ≤ p.epoch := Nat.not_le.mpr hlt
    refine ⟨?_, ?_, ?_⟩
    · have hstep : RemoveFromISR m streamName replica partitionID epoch =
          (setPartitionM m streamName partitionID
            ((p.removeFromISRp replica).setEpochP epoch), none) := by
        simp [RemoveFromISR, hp, hnle]
      simp only [hstep, getPartitionM_setPartitionM, hp, Option.map_some']
    · have hstep : AddToISR m streamName replica partitionID epoch =
          (setPartitionM m streamName partitionID
            ((p.addToISRp replica).setEpochP epoch), none) := by
        simp [AddToISR, hp, hnle]
      simp only [hstep, getPartitionM_setPartitionM, hp, Option.map_some']
    · have hstep : ChangeLeader m streamName leader partitionID epoch =
          ({ setPartitionM m streamName partitionID
               ((p.setLeaderP leader epoch).setEpochP epoch) with
             brokerLeaderLoad :=
               incLoad (decLoadGuard (setPartitionM m streamName partitionID
                 ((p.setLeaderP leader epoch).setEpochP epoch)).brokerLeaderLoad p.leader)
                 leader }, none) := by
        simp [ChangeLeader, hp, hnle]
      have hload : getPartitionM
          ({ setPartitionM m streamName partitionID
               ((p.setLeaderP leader epoch).setEpochP epoch) with
             brokerLeaderLoad :=
               incLoad (decLoadGuard (setPartitionM m streamName partitionID
                 ((p.setLeaderP leader epoch).setEpochP epoch)).brokerLeaderLoad p.leader)
                 leader }) streamName partitionID =
          getPartitionM (setPartitionM m streamName partitionID
            ((p.setLeaderP leader epoch).setEpochP epoch)) streamName partitionID := rfl
      simp only [hstep, hload, getPartitionM_setPartitionM, hp, Option.map_some']
  · intro p q hp
    refine ⟨?_, ?_, ?_⟩
    · intro hq
      by_cases he : epoch ≤ p.epoch
      · have hstep : RemoveFromISR m streamName replica partitionID epoch = (m, none) := by
          simp [RemoveFromISR, hp, he]
        simp only [hstep] at hq
        rw [hp] at hq
        obtain rfl : p = q := by simpa using hq
        exact le_refl _
      · have hnle := he
        have hstep : RemoveFromISR m streamName replica partitionID epoch =
            (setPartitionM m streamName partitionID
              ((p.removeFromISRp replica).setEpochP epoch), none) := by
          simp [RemoveFromISR, hp, hnle]
        simp only [hstep, getPartitionM_setPartitionM, hp, Option.map_some'] at hq
        obtain rfl : (p.removeFromISRp replica).setEpochP epoch = q := by simpa using hq
        exact Nat.le_of_lt (Nat.not_le.mp he)
    · intro hq
      by_cases he : epoch ≤ p.epoch
      · have hstep : AddToISR m streamName replica partitionID epoch = (m, none) := by
          simp [AddToISR, hp, he]
        simp only [hstep] at hq
        rw [hp] at hq
        obtain rfl : p = q := by simpa using hq
        exact le_refl _
      · have hstep : AddToISR m streamName replica partitionID epoch =
            (setPartitionM m streamName partitionID
              ((p.addToISRp replica).setEpochP epoch), none) := by
          simp [AddToISR, hp, he]
        simp only [hstep, getPartitionM_setPartitionM, hp, Option.map_some'] at hq
        obtain rfl : (p.addToISRp replica).setEpochP epoch = q := by simpa using hq
        exact Nat.le_of_lt (Nat.not_le.mp he)
    · intro hq
      by_cases he : epoch ≤ p.epoch
      · have hstep : ChangeLeader m streamName leader partitionID epoch = (m, none) := by
          simp [ChangeLeader, hp, he]
        simp only [hstep] at hq
        rw [hp] at hq
        obtain rfl : p = q := by simpa using hq
        exact le_refl _
      · have hstep : ChangeLeader m streamName leader partitionID epoch =
            ({ setPartitionM m streamName partitionID
                 ((p.setLeaderP leader epoch).setEpochP epoch) with
               brokerLeaderLoad :=
                 incLoad (decLoadGuard (setPartitionM m streamName partitionID
                   ((p.setLeaderP leader epoch).setEpochP epoch)).brokerLeaderLoad p.leader)
                   leader }, none) := by
          simp [ChangeLeader, hp, he]
        have hload : getPartitionM
            ({ setPartitionM m streamName partitionID
                 ((p.setLeaderP leader epoch).setEpochP epoch) with
               brokerLeaderLoad :=
                 incLoad (decLoadGuard (setPartitionM m streamName partitionID
                   ((p.setLeaderP leader epoch).setEpochP epoch)).brokerLeaderLoad p.leader)
                   leader }) streamName partitionID =
            getPartitionM (setPartitionM m streamName partitionID
              ((p.setLeaderP leader epoch).setEpochP epoch)) streamName partitionID := rfl
        simp only [hstep, hload, getPartitionM_setPartitionM, hp, Option.map_some'] at hq
        obtain rfl : (p.setLeaderP leader epoch).setEpochP epoch = q := by simpa using hq
        exact Nat.le_of_lt (Nat.not_le.mp he)
  · cases hg : getPartitionM m streamName partitionID with
    | none =>
      have hstep : RemoveFromISR m streamName replica partitionID epoch =
          (m, some "No such partition") := by
        simp [RemoveFromISR, hg]
      rw [hstep]
      exact hstep
    | some p =>
      by_cases he : epoch ≤ p.epoch
      · have hstep : RemoveFromISR m streamName replica partitionID epoch = (m, none) := by
          simp [RemoveFromISR, hg, he]
        rw [hstep]
        exact hstep
      · have hstep : RemoveFromISR m streamName replica partitionID epoch =
            (setPartitionM m streamName partitionID
              ((p.removeFromISRp replica).setEpochP epoch), none) := by
          simp [RemoveFromISR, hg, he]
        rw [hstep]
        have hg2 : getPartitionM (setPartitionM m streamName partitionID
            ((p.removeFromISRp replica).setEpochP epoch)) streamName partitionID =
            some ((p.removeFromISRp replica).setEpochP epoch) := by
          rw [getPartitionM_setPartitionM, hg]
          rfl
        have hep : ((p.removeFromISRp replica).setEpochP epoch).epoch = epoch := rfl
        simp [RemoveFromISR, hg2, hep]
  · cases hg : getPartitionM m streamName partitionID with
    | none =>
      have hstep : AddToISR m streamName replica partitionID epoch =
          (m, some "No such partition") := by
        simp [AddToISR, hg]
      rw [hstep]
      exact hstep
    | some p =>
      by_cases he : epoch ≤ p.epoch
      · have hstep : AddToISR m streamName replica partitionID epoch = (m, none) := by
          simp [AddToISR, hg, he]
        rw [hstep]
        exact hstep
      · have hstep : AddToISR m streamName replica partitionID epoch =
            (setPartitionM m streamName partitionID
              ((p.addToISRp replica).setEpochP epoch), none) := by
          simp [AddToISR, hg, he]
        rw [hstep]
        have hg2 : getPartitionM (setPartitionM m streamName partitionID
            ((p.addToISRp replica).setEpochP epoch)) streamName partitionID =
            some ((p.addToISRp replica).setEpochP epoch) := by
          rw [getPartitionM_setPartitionM, hg]
          rfl
        have hep : ((p.addToISRp replica).setEpochP epoch).epoch = epoch := rfl
        simp [AddToISR, hg2, hep]
  · cases hg : getPartitionM m streamName partitionID with
    | none =>
      have hstep : ChangeLeader m streamName leader partitionID epoch =
          (m, some "No such partition") := by
        simp [ChangeLeader, hg]
      rw [hstep]
      exact hstep
    | some p =>
      by_cases he : epoch ≤ p.epoch
      · have hstep : ChangeLeader m streamName leader partitionID epoch = (m, none) := by
          simp [ChangeLeader, hg, he]
        rw [hstep]
        exact hstep
      · have hstep : ChangeLeader m streamName leader partitionID epoch =
            ({ setPartitionM m streamName partitionID
                 ((p.setLeaderP leader epoch).setEpochP epoch) with
               brokerLeaderLoad :=
                 incLoad (decLoadGuard (setPartitionM m streamName partitionID
                   ((p.setLeaderP leader epoch).setEpochP epoch)).brokerLeaderLoad p.leader)
                   leader }, none) := by
          simp [ChangeLeader, hg, he]
        rw [hstep]
        have hg2 : getPartitionM
            ({ setPartitionM m streamName partitionID
                 ((p.setLeaderP leader epoch).setEpochP epoch) with
               brokerLeaderLoad :=
                 incLoad (decLoadGuard (setPartitionM m streamName partitionID
                   ((p.setLeaderP leader epoch).setEpochP epoch)).brokerLeaderLoad p.leader)
                   leader }) streamName partitionID =
            some ((p.setLeaderP leader epoch).setEpochP epoch) := by
          show getPartitionM (setPartitionM m streamName partitionID
            ((p.setLeaderP leader epoch).setEpochP epoch)) streamName partitionID = _
          rw [getPartitionM_setPartitionM, hg]
          rfl
        have hep : ((p.setLeaderP leader epoch).setEpochP epoch).epoch = epoch := rfl
        simp [ChangeLeader, hg2, hep]

/-- Witness for claim C6 at a concrete input: replaying an entry carrying the
partition's current epoch 3 is a complete no-op, while an entry carrying epoch
5 removes the replica and installs epoch 5. -/
theorem c6_epoch_fence_witness :
    RemoveFromISR mC6 "foo" "b" 0 3 = (mC6, none) ∧
    getPartitionM (RemoveFromISR mC6 "foo" "b" 0 5).1 "foo" 0 =
      some ((pC5.removeFromISRp "b").setEpochP 5) :=
  ⟨((c6_epoch_fence mC6 "foo" "b" "c" 0 3).1 pC5 (by decide) (by decide)).1,
   ((c6_epoch_fence mC6 "foo" "b" "c" 0 5).2.1 pC5 (by decide) (by decide)).1⟩

end Liftbridge
